import Mathlib

/-!
Verification of the step-based constraint-solver engine declared in
lib/Sema/CSStep.h (SolverStep, SplitterStep, ComponentStep, TypeVariableStep,
DisjunctionStep).

The shared solver state (constraint list, type-variable pool, constraint
graph, score, resolved-overload chain) is embedded as an explicit record
`State`; constraints are heap objects addressed by numeric ids into a store,
so that flag mutations (`setEnabled` / `setDisabled`) are visible through
every reference, exactly as for the C++ `Constraint *` pointers.  Functions
defined from code in CSStep.h cite their line numbers; collaborator
operations that CSStep.h only calls (declared in headers outside the
fragment) are modelled from the specification and say so in their doc
comments.
-/

namespace CSStep

/-- A type: either a type variable or some concrete type (opaque here). -/
inductive Ty where
  | tvar (v : Nat)
  | concrete (n : Nat)
deriving DecidableEq, Repr

/-- Constraint kinds relevant to the step engine (spec §3). -/
inductive ConstraintKind where
  | equality
  | conformance
  | disjunction
  | other
deriving DecidableEq, Repr

/-- An overload choice: either a declaration (identified by a numeral) or a
non-declaration choice kind (base type, tuple index, ...); mirrors
`OverloadChoice::isDecl()` / `getDecl()`. -/
inductive OverloadChoice where
  | decl (d : Nat)
  | nonDecl (k : Nat)
deriving DecidableEq, Repr

/-- The mutable payload of one `Constraint` object: kind, first operand type,
nested choice constraints (for disjunctions, by id), the overload choice (for
bind-overload choice constraints) and the enabled/disabled flag.  A freshly
created constraint is enabled. -/
structure ConstraintData where
  kind : ConstraintKind := ConstraintKind.other
  firstType : Ty := Ty.concrete 0
  nested : List Nat := []
  choice : OverloadChoice := OverloadChoice.nonDecl 0
  enabled : Bool := true
deriving DecidableEq, Repr

/-- One entry of the resolved-overload chain `CS.resolvedOverloadSets`
(`ResolvedOverloadSetListItem`): the bound type and the chosen overload.
The chain is a linked list whose head is the most recently resolved item and
whose `Previous` pointers walk toward older items; it is embedded as a list
with the head first. -/
structure ResolvedOverload where
  boundType : Ty
  choice : OverloadChoice
deriving DecidableEq, Repr

/-- The shared, mutable solver state owned by the `ConstraintSystem`
collaborator, restricted to the parts CSStep.h reads and writes:
 * `store`      — the constraint heap, indexed by constraint id;
 * `inactive`   — `CS.InactiveConstraints`, the ordered live constraint list;
 * `typeVars`   — `CS.TypeVariables`, the type-variable pool;
 * `graph`      — which constraints the constraint graph currently holds
                  (`CG.addConstraint` / `CG.removeConstraint`);
 * `score`      — `CS.CurrentScore`;
 * `resolved`   — `CS.resolvedOverloadSets`, most recent first;
 * `reprMap`    — union-find representative of each type variable
                  (`getImpl().getRepresentative`), absent = null;
 * `scopePtr`   — `CS.solverState->PartialSolutionScope` (abstract token);
 * `numDisjunctions` — the `NumDisjunctions` statistic;
 * `orphaned`   — the constraint graph's orphaned-constraint list. -/
structure State where
  store : List ConstraintData
  inactive : List Nat
  typeVars : List Nat
  graph : Finset Nat
  score : List Nat
  resolved : List ResolvedOverload
  reprMap : List (Nat × Nat)
  scopePtr : Nat
  numDisjunctions : Nat
  orphaned : List Nat
deriving DecidableEq

/-- Default payload used for out-of-range ids (never reached under the
well-formedness hypotheses of the theorems below). -/
def defaultData : ConstraintData := {}

/-- Dereference a constraint id. -/
def dataOf (s : State) (c : Nat) : ConstraintData :=
  s.store.getD c defaultData

def kindOf (s : State) (c : Nat) : ConstraintKind := (dataOf s c).kind

def nestedOf (s : State) (c : Nat) : List Nat := (dataOf s c).nested

def firstTypeOf (s : State) (c : Nat) : Ty := (dataOf s c).firstType

def choiceOf (s : State) (c : Nat) : OverloadChoice := (dataOf s c).choice

def enabledOf (s : State) (c : Nat) : Bool := (dataOf s c).enabled

/-- `typeVar->getImpl().getRepresentative(nullptr)`; `none` models a null
representative. -/
def reprOf (s : State) (v : Nat) : Option Nat :=
  s.reprMap.lookup v

/-- Write the enabled/disabled flag of one constraint object. -/
def setFlag (s : State) (c : Nat) (b : Bool) : State :=
  { s with store := s.store.set c { s.store.getD c defaultData with enabled := b } }

/-- `Constraint::setDisabled()`. -/
def setDisabled (s : State) (c : Nat) : State := setFlag s c false

/-- `Constraint::setEnabled()`. -/
def setEnabled (s : State) (c : Nat) : State := setFlag s c true

/-- Remove the first occurrence of `c` from a list (the effect of
`ConstraintList::erase` on the intrusive list). -/
def removeFirst (c : Nat) : List Nat → List Nat
  | [] => []
  | x :: l => if x = c then l else x :: removeFirst c l

/-- Position of the first occurrence of `c`; this is where the iterator
returned by `ConstraintList::erase(c)` points in the post-erase list. -/
def posOf (c : Nat) : List Nat → Nat
  | [] => 0
  | x :: l => if x = c then 0 else posOf c l + 1

/-- Insert an element before position `n` (the effect of
`ConstraintList::insert(iterator, c)`). -/
def insertAt : Nat → Nat → List Nat → List Nat
  | 0, a, l => a :: l
  | _ + 1, a, [] => [a]
  | n + 1, a, x :: l => x :: insertAt n a l

/-- `SolverStep::erase` (CSStep.h lines 61-64): remove the constraint from
the constraint graph and from `InactiveConstraints`, returning the iterator
which follows it (here: the index the constraint occupied). -/
def eraseConstraint (s : State) (c : Nat) : State × Nat :=
  ({ s with graph := s.graph.erase c, inactive := removeFirst c s.inactive },
   posOf c s.inactive)

/-- `SolverStep::restore` (CSStep.h lines 66-69): insert the constraint back
into `InactiveConstraints` before the given iterator and re-add it to the
constraint graph. -/
def restoreConstraint (s : State) (it : Nat) (c : Nat) : State :=
  { s with inactive := insertAt it c s.inactive, graph := insert c s.graph }

/-- `SolverStep::getCurrentScore` (CSStep.h line 75). -/
def getCurrentScore (s : State) : List Nat := s.score

/-- `SolverStep::getResolvedOverloads` (CSStep.h lines 71-73). -/
def getResolvedOverloads (s : State) : List ResolvedOverload := s.resolved

/-- A candidate solution (opaque to the step engine). -/
abbrev Solution := Nat

/-- `SolverStep::filterSolutions` (CSStep.h lines 77-80): when the constraint
system is not in retain-all-solutions mode, delegate to the collaborator's
`CS.filterSolutions(solutions, CS.solverState->ExprWeights, minimize)`;
otherwise leave the candidate set untouched.  The collaborator's filter is an
injected function parameter. -/
def stepFilterSolutions
    (csFilter : List Solution → List Nat → Bool → List Solution)
    (retainAllSolutions : Bool) (exprWeights : List Nat)
    (solutions : List Solution) (minimize : Bool) : List Solution :=
  if retainAllSolutions then solutions
  else csFilter solutions exprWeights minimize

/-- Fatal programming-contract violations surfaced by assertions in
CSStep.h (spec §7: these abort the whole query). -/
inductive Fatal where
  | assertKind
  | assertFront
  | assertOrphan
deriving DecidableEq, Repr

/-- Equality of fallible outcomes is decidable (used to evaluate the
constructors and destructors on concrete states). -/
instance exceptDecEq {e a : Type} [DecidableEq e] [DecidableEq a] :
    DecidableEq (Except e a) := fun x y =>
  match x, y with
  | Except.error u, Except.error v =>
    if h : u = v then Decidable.isTrue (by rw [h])
    else Decidable.isFalse (fun hc => h (by cases hc; rfl))
  | Except.ok u, Except.ok v =>
    if h : u = v then Decidable.isTrue (by rw [h])
    else Decidable.isFalse (fun hc => h (by cases hc; rfl))
  | Except.error _, Except.ok _ => Decidable.isFalse (fun hc => Except.noConfusion hc)
  | Except.ok _, Except.error _ => Decidable.isFalse (fun hc => Except.noConfusion hc)

/-- The step-local fields of a `SplitterStep` that its destructor reads
(CSStep.h lines 98-101). -/
structure SplitterStepObj where
  numComponents : Nat
  orphanedConstraints : List Nat
deriving DecidableEq, Repr

/-- `~SplitterStep` (CSStep.h lines 107-110) hands the step's orphaned
constraints to the constraint graph.  Modelled from the spec:
`ConstraintGraph::setOrphanedConstraints` is declared on the graph
collaborator outside this fragment; consistent with its name and the
`std::move` call site, it move-assigns the given vector as the graph's
orphaned-constraint list, replacing the previous contents. -/
def destroySplitterStep (s : State) (step : SplitterStepObj) : State :=
  { s with orphaned := step.orphanedConstraints }

/-- A value read from object memory that the constructor may have left
unwritten: placement-new into the solver's allocator does not zero memory,
so an unwritten pointer field holds an indeterminate value. -/
inductive Init (α : Type) where
  | value (a : α)
  | indeterminate
deriving DecidableEq, Repr

/-- The fields of a `ComponentStep` object (CSStep.h lines 132-153).
`scopeMem` models the raw `ComponentScope *Scope` pointer and `orphanMem`
the raw `Constraint *OrphanedConstraint` pointer; both are `Init` values
because the constructor's initializer list never writes them. -/
structure ComponentStepObj where
  index : Nat
  originalScore : List Nat
  scopeMem : Init (Option Nat)
  typeVarsRecorded : List Nat
  constraintsRecorded : List Nat
  orphanMem : Init (Option Nat)
deriving DecidableEq, Repr

/-- `ComponentStep::ComponentStep` (CSStep.h lines 150-153): the initializer
list sets only `Index` and `OriginalScore` (from `getCurrentScore()`); the
two `SmallVector` members are default-constructed empty; the `Scope` and
`OrphanedConstraint` pointers are left holding whatever the allocator memory
held, passed in here as `scopeMem` / `orphanMem`. -/
def mkComponentStep (s : State) (index : Nat)
    (scopeMem orphanMem : Init (Option Nat)) : ComponentStepObj :=
  { index := index
    originalScore := getCurrentScore s
    scopeMem := scopeMem
    typeVarsRecorded := []
    constraintsRecorded := []
    orphanMem := orphanMem }

/-- `ComponentStep::recordOrphan` (CSStep.h lines 173-176):
`assert(!OrphanedConstraint)` then store the constraint.  Reading an
indeterminate pointer gives an indeterminate outcome; a non-null stored
pointer trips the assertion. -/
def recordOrphan (obj : ComponentStepObj) (c : Nat) :
    Init (Except Fatal ComponentStepObj) :=
  match obj.orphanMem with
  | Init.indeterminate => Init.indeterminate
  | Init.value (some _) => Init.value (Except.error Fatal.assertOrphan)
  | Init.value none =>
      Init.value (Except.ok { obj with orphanMem := Init.value (some c) })

/-- The observable branch taken by `~ComponentStep` (CSStep.h lines 156-163):
whether the null test `if (!Scope) return;` leads to destroying a scope.
Reading an indeterminate pointer gives an indeterminate outcome. -/
def componentStepDestroyAct (obj : ComponentStepObj) : Init Bool :=
  match obj.scopeMem with
  | Init.indeterminate => Init.indeterminate
  | Init.value none => Init.value false
  | Init.value (some _) => Init.value true

/-- Does a nested choice constraint carry a declaration choice different
from the representative's declaration `rd`?  This is the disable condition
of the inner loop of `pruneOverloadSet` (CSStep.h lines 299-306). -/
def differingDecl (s : State) (rd : Nat) (ch : Nat) : Bool :=
  match choiceOf s ch with
  | OverloadChoice.decl d => decide (d ≠ rd)
  | OverloadChoice.nonDecl _ => false

/-- The inner loop of `pruneOverloadSet` (CSStep.h lines 299-306): walk the
nested constraints of the disjunction; skip a choice whose overload choice is
not a declaration or whose declaration equals the representative's; disable
every other choice and record it in `DisabledChoices` (iteration order). -/
def disableList (s : State) (rd : Nat) : List Nat → State × List Nat
  | [] => (s, [])
  | ch :: rest =>
    match choiceOf s ch with
    | OverloadChoice.nonDecl _ => disableList s rd rest
    | OverloadChoice.decl d =>
      if d = rd then disableList s rd rest
      else
        let s2 := setDisabled s ch
        let p := disableList s2 rd rest
        (p.1, ch :: p.2)

/-- The resolved-overload loop of `pruneOverloadSet` (CSStep.h lines
288-308): walk `resolvedOverloadSets` from the most recent item; skip items
whose bound type is not equal to the representative; at the first item bound
to the representative, return without disabling anything if its choice is
not a declaration, otherwise disable the differing nested choices and stop
(the trailing `break`). -/
def pruneOverloadLoop (s : State) (d : Nat) (r : Nat) :
    List ResolvedOverload → State × List Nat
  | [] => (s, [])
  | ro :: rest =>
    if ro.boundType = Ty.tvar r then
      match ro.choice with
      | OverloadChoice.nonDecl _ => (s, [])
      | OverloadChoice.decl rd => disableList s rd (nestedOf s d)
    else pruneOverloadLoop s d r rest

/-- `DisjunctionStep::pruneOverloadSet` (CSStep.h lines 278-309): look at the
first nested choice's first operand type; if it is a type variable with a
non-null representative different from itself, walk the resolved overloads
for one bound to that representative and disable the nested choices whose
declaration differs from its declaration.  `ArrayRef::front()` on an empty
nested-constraint list is an assertion failure, reported as `Fatal`. -/
def pruneOverloadSet (s : State) (d : Nat) : Except Fatal (State × List Nat) :=
  match nestedOf s d with
  | [] => Except.error Fatal.assertFront
  | ch :: _ =>
    match firstTypeOf s ch with
    | Ty.concrete _ => Except.ok (s, [])
    | Ty.tvar tv =>
      match reprOf s tv with
      | none => Except.ok (s, [])
      | some r =>
        if r = tv then Except.ok (s, [])
        else Except.ok (pruneOverloadLoop s d r (getResolvedOverloads s))

/-- The most recent resolved overload whose bound type equals the
representative — the item at which the loop of `pruneOverloadSet` stops.
This is the specification-side characterization used to state the pruning
theorem; `pruneOverloadLoop` is proved to agree with it. -/
def mostRecentBound (r : Nat) : List ResolvedOverload → Option ResolvedOverload
  | [] => none
  | ro :: rest => if ro.boundType = Ty.tvar r then some ro else mostRecentBound r rest

/-- Specification-side trigger of the pruning heuristic: the declaration
of the representative's overload, when the heuristic fires for a disjunction
whose first nested choice is `ch`; `none` when it does not fire. -/
def pruneTriggerOf (s : State) (ch : Nat) : Option Nat :=
  match firstTypeOf s ch with
  | Ty.concrete _ => none
  | Ty.tvar tv =>
    match reprOf s tv with
    | none => none
    | some r =>
      if r = tv then none
      else
        match mostRecentBound r (getResolvedOverloads s) with
        | none => none
        | some ro =>
          match ro.choice with
          | OverloadChoice.decl rd => some rd
          | OverloadChoice.nonDecl _ => none

/-- The `DisabledChoices` list `pruneOverloadSet` would record on state `s`
(empty when the constructor would not reach the loop). -/
def pruneRecordOf (s : State) (d : Nat) : List Nat :=
  match pruneOverloadSet s d with
  | Except.ok p => p.2
  | Except.error _ => []

/-- The step-local fields of a `DisjunctionStep` that its destructor reads
(CSStep.h lines 235-237). -/
structure DisjStep where
  disjunction : Nat
  afterDisjunction : Nat
  disabledChoices : List Nat
deriving DecidableEq, Repr

/-- `DisjunctionStep::DisjunctionStep` (CSStep.h lines 248-255): the member
initializer `AfterDisjunction(erase(disjunction))` removes the disjunction
from the constraint list and graph before the body runs; the body asserts
`getKind() == ConstraintKind::Disjunction`, runs `pruneOverloadSet` (whose
`front()` call asserts the nested-constraint list is non-empty) and bumps
`NumDisjunctions`.  A failed assertion is a `Fatal` outcome. -/
def mkDisjunctionStep (s : State) (c : Nat) : Except Fatal (State × DisjStep) :=
  if kindOf (eraseConstraint s c).1 c = ConstraintKind.disjunction then
    match pruneOverloadSet (eraseConstraint s c).1 c with
    | Except.error e => Except.error e
    | Except.ok p =>
        Except.ok
          ({ p.1 with numDisjunctions := p.1.numDisjunctions + 1 },
           { disjunction := c
             afterDisjunction := posOf c s.inactive
             disabledChoices := p.2 })
  else Except.error Fatal.assertKind

/-- `~DisjunctionStep` (CSStep.h lines 257-262): re-insert the disjunction
at the remembered position (`restore(AfterDisjunction, Disjunction)`), then
call `setEnabled()` on every constraint recorded in `DisabledChoices`. -/
def destroyDisjunctionStep (s : State) (st : DisjStep) : State :=
  st.disabledChoices.foldl setEnabled
    (restoreConstraint s st.afterDisjunction st.disjunction)

/-- Construct a `DisjunctionStep`, run an arbitrary exploration of its
choices (the `advance()` loop), and destroy the step.  The theorems place
the spec's scope-discipline contract on `search` where the claim needs it. -/
def disjunctionRoundTrip (s : State) (c : Nat) (search : State → State) :
    Except Fatal State :=
  match mkDisjunctionStep s c with
  | Except.error e => Except.error e
  | Except.ok p => Except.ok (destroyDisjunctionStep (search p.1) p.2)

/-- The type variables and constraints assigned to one connected component
by the splitter (recorded through `ComponentStep::record`). -/
structure Component where
  typeVars : List Nat
  constraints : List Nat
deriving DecidableEq, Repr

/-- The fields of `ComponentStep::ComponentScope` (CSStep.h lines 186-209)
that its destructor reads: the saved type-variable pool, the inactive
constraints held away from the system, the previous partial-solution-scope
pointer, and the `SolverScope` undo checkpoint. -/
structure ComponentScopeObj where
  savedTypeVars : List Nat
  heldConstraints : List Nat
  prevScopePtr : Nat
  checkpoint : State
deriving DecidableEq

/-- Modelled from the spec: the `ComponentScope` constructor is declared at
CSStep.h line 198 but defined outside this fragment.  Per spec §4.3 it
isolates the component so that it "pretends to be the entire system": the
shared type-variable pool is saved into the scope and replaced by the
component's own type variables; the inactive constraints that do not belong
to the component are moved out of the list into the scope, leaving exactly
the component's constraints (in their original relative order) as the live
list; the prior partial-solution-scope pointer is recorded and a fresh one
installed; and a `SolverScope` checkpoint is opened over the isolated state.
This is precisely the state the destructor at CSStep.h lines 200-208
reverses field by field. -/
def mkComponentScope (s : State) (comp : Component) : State × ComponentScopeObj :=
  ({ s with
      typeVars := comp.typeVars
      inactive := s.inactive.filter (fun c => comp.constraints.contains c)
      scopePtr := s.scopePtr + 1 },
   { savedTypeVars := s.typeVars
     heldConstraints := s.inactive.filter (fun c => !comp.constraints.contains c)
     prevScopePtr := s.scopePtr
     checkpoint :=
       { s with
          typeVars := comp.typeVars
          inactive := s.inactive.filter (fun c => comp.constraints.contains c)
          scopePtr := s.scopePtr + 1 } })

/-- Modelled from the spec: `delete SolverScope` at CSStep.h line 201
"rewinds back all of the changes".  Per the Scope contract (spec §2, §3) every
mutation to the shared solver state recorded since the scope was opened is
exactly reversed: the constraint store (bindings and flags), the inactive
list, the type-variable pool, the graph, the score, the resolved-overload
chain and the representatives return to their checkpoint values.  Solver
statistics, the partial-solution-scope pointer (restored manually by the
destructor on the next line) and the graph's orphan list are not part of the
undo log. -/
def rewindTo (checkpoint current : State) : State :=
  { current with
      store := checkpoint.store
      inactive := checkpoint.inactive
      typeVars := checkpoint.typeVars
      graph := checkpoint.graph
      score := checkpoint.score
      resolved := checkpoint.resolved
      reprMap := checkpoint.reprMap }

/-- `~ComponentScope` (CSStep.h lines 200-208): delete the `SolverScope`
(rewinding every logged change), restore `PartialSolutionScope`, move the
saved type variables back wholesale (`CS.TypeVariables = std::move(TypeVars)`)
and splice the held constraints onto the end of `CS.InactiveConstraints`. -/
def destroyComponentScope (current : State) (sc : ComponentScopeObj) : State :=
  { rewindTo sc.checkpoint current with
      scopePtr := sc.prevScopePtr
      typeVars := sc.savedTypeVars
      inactive := (rewindTo sc.checkpoint current).inactive ++ sc.heldConstraints }

/-- `~ComponentStep` (CSStep.h lines 156-163) on a step whose `Scope` was
assigned: `delete Scope` runs `~ComponentScope`. -/
def destroyComponentStep (current : State) (scope : Option ComponentScopeObj) :
    State :=
  match scope with
  | none => current
  | some sc => destroyComponentScope current sc

/-- Open a `ComponentScope` over the component, run an arbitrary sub-search
(every execution path through the component — success, partial success or
total failure), and destroy the scope. -/
def componentRoundTrip (s : State) (comp : Component) (search : State → State) :
    State :=
  destroyComponentScope (search (mkComponentScope s comp).1)
    (mkComponentScope s comp).2

/-! Concrete states used to evaluate the definitions on explicit inputs. -/

/-- Two orphan-free constraints, both live and attached to the graph. -/
def cexC1 : State :=
  { store := [{}, {}]
    inactive := [0, 1]
    typeVars := [3]
    graph := {0, 1}
    score := [1]
    resolved := []
    reprMap := []
    scopePtr := 0
    numDisjunctions := 0
    orphaned := [] }

/-- A component owning only constraint 1 — the second constraint of
`cexC1.inactive`, so the component's constraints are not a prefix of the
live list. -/
def cexComp : Component := { typeVars := [], constraints := [1] }

/-- A disjunction constraint with no nested choices. -/
def c4empty : State :=
  { store := [{ kind := ConstraintKind.disjunction }]
    inactive := [0]
    typeVars := []
    graph := {0}
    score := []
    resolved := []
    reprMap := []
    scopePtr := 0
    numDisjunctions := 0
    orphaned := [] }

/-- A live disjunction (id 0) whose nested choices are ids 1 and 2; choice 1
binds declaration 5 and its first operand is type variable 0, whose
representative is variable 9; the most recent resolved overload bound to
variable 9 chose declaration 5.  Both choices start enabled. -/
def wstC2 : State :=
  { store :=
      [ { kind := ConstraintKind.disjunction, nested := [1, 2] }
      , { firstType := Ty.tvar 0, choice := OverloadChoice.decl 5 }
      , { choice := OverloadChoice.decl 7 } ]
    inactive := [0]
    typeVars := []
    graph := {0}
    score := []
    resolved := [{ boundType := Ty.tvar 9, choice := OverloadChoice.decl 5 }]
    reprMap := [(0, 9)]
    scopePtr := 0
    numDisjunctions := 0
    orphaned := [] }

/-- Same shape as `wstC2` except that choice 2 (declaration 7) is already
disabled before the `DisjunctionStep` is constructed. -/
def c2cex : State :=
  { store :=
      [ { kind := ConstraintKind.disjunction, nested := [1, 2] }
      , { firstType := Ty.tvar 0, choice := OverloadChoice.decl 5 }
      , { choice := OverloadChoice.decl 7, enabled := false } ]
    inactive := [0]
    typeVars := []
    graph := {0}
    score := []
    resolved := [{ boundType := Ty.tvar 9, choice := OverloadChoice.decl 5 }]
    reprMap := [(0, 9)]
    scopePtr := 0
    numDisjunctions := 0
    orphaned := [] }

/-- Same shape as `wstC2` except that the most recent resolved overload
bound to the representative (variable 9) is not a declaration choice, while
an older resolved overload bound to it chose declaration 5. -/
def c3cex : State :=
  { store :=
      [ { kind := ConstraintKind.disjunction, nested := [1, 2] }
      , { firstType := Ty.tvar 0, choice := OverloadChoice.decl 5 }
      , { choice := OverloadChoice.decl 7 } ]
    inactive := [0]
    typeVars := []
    graph := {0}
    score := []
    resolved := [ { boundType := Ty.tvar 9, choice := OverloadChoice.nonDecl 0 }
                , { boundType := Ty.tvar 9, choice := OverloadChoice.decl 5 } ]
    reprMap := [(0, 9)]
    scopePtr := 0
    numDisjunctions := 0
    orphaned := [] }

/-- A splitter step holding two distinct orphaned constraints. -/
def exSplit : SplitterStepObj := { numComponents := 2, orphanedConstraints := [4, 5] }

/-- A state whose constraint graph already holds an orphaned constraint. -/
def exStateOrph : State := { cexC1 with orphaned := [9] }

/-! Helper lemmas about the store and list primitives. -/

theorem getD_set (l : List ConstraintData) (i : Nat) (v d : ConstraintData)
    (j : Nat) :
    (l.set i v).getD j d = if j = i ∧ i < l.length then v else l.getD j d := by
  induction l generalizing i j with
  | nil => simp [List.getD]
  | cons hd tl ih =>
    cases i with
    | zero =>
      cases j with
      | zero => simp
      | succ j2 => simp
    | succ i2 =>
      cases j with
      | zero => simp
      | succ j2 =>
        simp only [List.set, List.getD_cons_succ, ih, List.length_cons]
        have hiff : (j2 + 1 = i2 + 1 ∧ i2 + 1 < tl.length + 1) ↔
            (j2 = i2 ∧ i2 < tl.length) := by omega
        rw [if_congr hiff rfl rfl]

theorem dataOf_setFlag (s : State) (c : Nat) (b : Bool) (x : Nat) :
    dataOf (setFlag s c b) x =
      if x = c ∧ c < s.store.length then { dataOf s c with enabled := b }
      else dataOf s x := by
  simp only [dataOf, setFlag, getD_set]

theorem enabledOf_setFlag (s : State) (c : Nat) (b : Bool) (x : Nat) :
    enabledOf (setFlag s c b) x =
      if x = c ∧ c < s.store.length then b else enabledOf s x := by
  simp only [enabledOf, dataOf_setFlag]
  split <;> rfl

theorem choiceOf_setFlag (s : State) (c : Nat) (b : Bool) (x : Nat) :
    choiceOf (setFlag s c b) x = choiceOf s x := by
  simp only [choiceOf, dataOf_setFlag]
  split
  · next h => rw [h.1]
  · rfl

theorem storeLen_setFlag (s : State) (c : Nat) (b : Bool) :
    (setFlag s c b).store.length = s.store.length := by
  simp [setFlag]

theorem differingDecl_setFlag (s : State) (c : Nat) (b : Bool) (rd x : Nat) :
    differingDecl (setFlag s c b) rd x = differingDecl s rd x := by
  simp only [differingDecl, choiceOf_setFlag]

theorem insertAt_posOf_removeFirst {c : Nat} :
    ∀ {l : List Nat}, c ∈ l → insertAt (posOf c l) c (removeFirst c l) = l := by
  intro l
  induction l with
  | nil => intro h; cases h
  | cons x t ih =>
    intro h
    by_cases hx : x = c
    · subst hx
      simp [posOf, removeFirst, insertAt]
    · have hm : c ∈ t := by
        rcases List.mem_cons.mp h with h1 | h1
        · exact absurd h1.symm hx
        · exact h1
      simp only [posOf, removeFirst, if_neg hx, insertAt]
      rw [ih hm]

theorem filter_partition_perm (p : Nat → Bool) (l : List Nat) :
    (l.filter p ++ l.filter (fun x => !p x)).Perm l := by
  induction l with
  | nil => simp
  | cons x t ih =>
    by_cases h : p x = true
    · simp only [List.filter_cons, h, Bool.not_true, if_true, if_false,
        cond_true, cond_false]
      simpa using ih.cons x
    · have h2 : p x = false := by
        cases hpx : p x
        · rfl
        · exact absurd hpx h
      simp only [List.filter_cons, h2, Bool.not_false, cond_true, cond_false]
      exact List.perm_middle.trans (ih.cons x)

theorem disableList_record (rd : Nat) :
    ∀ (l : List Nat) (s : State),
      (disableList s rd l).2 = l.filter (differingDecl s rd) := by
  intro l
  induction l with
  | nil => intro s; rfl
  | cons ch rest ih =>
    intro s
    rcases hch : choiceOf s ch with d | k
    · by_cases hd : d = rd
      · have hdch : differingDecl s rd ch = false := by
          simp [differingDecl, hch, hd]
        simp only [disableList, hch, if_pos hd]
        rw [ih s]
        simp [List.filter_cons, hdch]
      · have hdch : differingDecl s rd ch = true := by
          simp [differingDecl, hch, hd]
        simp only [disableList, hch, if_neg hd]
        rw [ih (setDisabled s ch)]
        have hfc : rest.filter (differingDecl (setDisabled s ch) rd) =
            rest.filter (differingDecl s rd) :=
          List.filter_congr (fun x _ => differingDecl_setFlag s ch false rd x)
        rw [hfc]
        simp [List.filter_cons, hdch]
    · have hdch : differingDecl s rd ch = false := by
        simp [differingDecl, hch]
      simp only [disableList, hch]
      rw [ih s]
      simp [List.filter_cons, hdch]

theorem disableList_enabled (rd : Nat) :
    ∀ (l : List Nat) (s : State), (∀ y ∈ l, y < s.store.length) →
      ∀ x, enabledOf (disableList s rd l).1 x =
        if x ∈ l ∧ differingDecl s rd x = true then false else enabledOf s x := by
  intro l
  induction l with
  | nil =>
    intro s _ x
    simp [disableList]
  | cons ch rest ih =>
    intro s hb x
    have hbr : ∀ y ∈ rest, y < s.store.length :=
      fun y hy => hb y (List.mem_cons_of_mem ch hy)
    rcases hch : choiceOf s ch with d | k
    · by_cases hd : d = rd
      · have hdch : differingDecl s rd ch = false := by
          simp [differingDecl, hch, hd]
        simp only [disableList, hch, if_pos hd]
        rw [ih s hbr x]
        by_cases hm : x ∈ rest ∧ differingDecl s rd x = true
        · rw [if_pos hm, if_pos ⟨List.mem_cons_of_mem ch hm.1, hm.2⟩]
        · rw [if_neg hm]
          by_cases hxc : x = ch
          · subst hxc
            rw [if_neg]
            intro hcon
            rw [hdch] at hcon
            exact absurd hcon.2 (by simp)
          · rw [if_neg]
            intro hcon
            rcases List.mem_cons.mp hcon.1 with h1 | h1
            · exact hxc h1
            · exact hm ⟨h1, hcon.2⟩
      · have hdch : differingDecl s rd ch = true := by
          simp [differingDecl, hch, hd]
        simp only [disableList, hch, if_neg hd]
        have hbr2 : ∀ y ∈ rest, y < (setDisabled s ch).store.length := by
          intro y hy
          simp only [setDisabled, storeLen_setFlag]
          exact hbr y hy
        rw [ih (setDisabled s ch) hbr2 x]
        have hchlt : ch < s.store.length := hb ch (List.mem_cons_self ch rest)
        have hen : enabledOf (setDisabled s ch) x =
            if x = ch then false else enabledOf s x := by
          simp only [setDisabled]
          rw [enabledOf_setFlag]
          by_cases hxc : x = ch
          · rw [if_pos ⟨hxc, hchlt⟩, if_pos hxc]
          · rw [if_neg (fun hcon => hxc hcon.1), if_neg hxc]
        have hdd : differingDecl (setDisabled s ch) rd x = differingDecl s rd x :=
          differingDecl_setFlag s ch false rd x
        rw [hdd, hen]
        by_cases hm : x ∈ rest ∧ differingDecl s rd x = true
        · rw [if_pos hm, if_pos ⟨List.mem_cons_of_mem ch hm.1, hm.2⟩]
        · rw [if_neg hm]
          by_cases hxc : x = ch
          · subst hxc
            rw [if_pos rfl, if_pos ⟨List.mem_cons_self x rest, hdch⟩]
          · rw [if_neg hxc, if_neg]
            intro hcon
            rcases List.mem_cons.mp hcon.1 with h1 | h1
            · exact hxc h1
            · exact hm ⟨h1, hcon.2⟩
    · have hdch : differingDecl s rd ch = false := by
        simp [differingDecl, hch]
      simp only [disableList, hch]
      rw [ih s hbr x]
      by_cases hm : x ∈ rest ∧ differingDecl s rd x = true
      · rw [if_pos hm, if_pos ⟨List.mem_cons_of_mem ch hm.1, hm.2⟩]
      · rw [if_neg hm]
        by_cases hxc : x = ch
        · subst hxc
          rw [if_neg]
          intro hcon
          rw [hdch] at hcon
          exact absurd hcon.2 (by simp)
        · rw [if_neg]
          intro hcon
          rcases List.mem_cons.mp hcon.1 with h1 | h1
          · exact hxc h1
          · exact hm ⟨h1, hcon.2⟩

theorem disableList_frame (rd : Nat) :
    ∀ (l : List Nat) (s : State),
      (disableList s rd l).1.inactive = s.inactive ∧
      (disableList s rd l).1.graph = s.graph ∧
      (disableList s rd l).1.score = s.score ∧
      (disableList s rd l).1.typeVars = s.typeVars ∧
      (disableList s rd l).1.resolved = s.resolved ∧
      (disableList s rd l).1.reprMap = s.reprMap ∧
      (disableList s rd l).1.scopePtr = s.scopePtr ∧
      (disableList s rd l).1.numDisjunctions = s.numDisjunctions ∧
      (disableList s rd l).1.orphaned = s.orphaned ∧
      (disableList s rd l).1.store.length = s.store.length := by
  intro l
  induction l with
  | nil =>
    intro s
    exact ⟨rfl, rfl, rfl, rfl, rfl, rfl, rfl, rfl, rfl, rfl⟩
  | cons ch rest ih =>
    intro s
    rcases hch : choiceOf s ch with d | k
    · by_cases hd : d = rd
      · simpa only [disableList, hch, if_pos hd] using ih s
      · simp only [disableList, hch, if_neg hd]
        have h2 := ih (setDisabled s ch)
        exact ⟨h2.1, h2.2.1, h2.2.2.1, h2.2.2.2.1, h2.2.2.2.2.1, h2.2.2.2.2.2.1,
          h2.2.2.2.2.2.2.1, h2.2.2.2.2.2.2.2.1, h2.2.2.2.2.2.2.2.2.1,
          h2.2.2.2.2.2.2.2.2.2.trans (storeLen_setFlag s ch false)⟩
    · simpa only [disableList, hch] using ih s

theorem pruneOverloadLoop_eq (s : State) (d r : Nat) :
    ∀ l : List ResolvedOverload,
      pruneOverloadLoop s d r l =
        match mostRecentBound r l with
        | none => (s, [])
        | some ro =>
          match ro.choice with
          | OverloadChoice.decl rd => disableList s rd (nestedOf s d)
          | OverloadChoice.nonDecl _ => (s, []) := by
  intro l
  induction l with
  | nil => rfl
  | cons ro rest ih =>
    by_cases hb : ro.boundType = Ty.tvar r
    · simp only [pruneOverloadLoop, mostRecentBound, if_pos hb]
      rcases hc : ro.choice with rd | k <;> rfl
    · simp only [pruneOverloadLoop, mostRecentBound, if_neg hb]
      exact ih

theorem pruneOverloadSet_eq (s : State) (d ch : Nat) (rest : List Nat)
    (h : nestedOf s d = ch :: rest) :
    pruneOverloadSet s d =
      match pruneTriggerOf s ch with
      | some rd => Except.ok (disableList s rd (nestedOf s d))
      | none => Except.ok (s, []) := by
  have hL : pruneOverloadSet s d =
      (match firstTypeOf s ch with
       | Ty.concrete _ => Except.ok (s, [])
       | Ty.tvar tv =>
         match reprOf s tv with
         | none => Except.ok (s, [])
         | some r =>
           if r = tv then Except.ok (s, [])
           else Except.ok (pruneOverloadLoop s d r (getResolvedOverloads s))) := by
    unfold pruneOverloadSet
    rw [h]
  rw [hL]
  unfold pruneTriggerOf
  rcases hft : firstTypeOf s ch with tv | n
  · show
      (match reprOf s tv with
       | none => Except.ok (s, [])
       | some r =>
         if r = tv then Except.ok (s, [])
         else Except.ok (pruneOverloadLoop s d r (getResolvedOverloads s))) =
      (match
         (match reprOf s tv with
          | none => none
          | some r =>
            if r = tv then none
            else
              match mostRecentBound r (getResolvedOverloads s) with
              | none => none
              | some ro =>
                match ro.choice with
                | OverloadChoice.decl rd => some rd
                | OverloadChoice.nonDecl _ => none) with
       | some rd => Except.ok (disableList s rd (nestedOf s d))
       | none => Except.ok (s, []))
    rcases hr : reprOf s tv with _ | r
    · rfl
    · show
        (if r = tv then Except.ok (s, [])
         else Except.ok (pruneOverloadLoop s d r (getResolvedOverloads s))) =
        (match
           (if r = tv then none
            else
              match mostRecentBound r (getResolvedOverloads s) with
              | none => none
              | some ro =>
                match ro.choice with
                | OverloadChoice.decl rd => some rd
                | OverloadChoice.nonDecl _ => none) with
         | some rd => Except.ok (disableList s rd (nestedOf s d))
         | none => Except.ok (s, []))
      by_cases hrt : r = tv
      · simp only [if_pos hrt]
      · simp only [if_neg hrt]
        rw [pruneOverloadLoop_eq]
        rcases hmr : mostRecentBound r (getResolvedOverloads s) with _ | ro
        · rfl
        · rcases hc : ro.choice with rd | k <;> simp [hc]
  · rfl

theorem enabledOf_congr {a b : State} (h : a.store = b.store) (x : Nat) :
    enabledOf a x = enabledOf b x := by
  unfold enabledOf dataOf
  rw [h]

theorem kindOf_erase (s : State) (c x : Nat) :
    kindOf (eraseConstraint s c).1 x = kindOf s x := rfl

theorem nestedOf_erase (s : State) (c x : Nat) :
    nestedOf (eraseConstraint s c).1 x = nestedOf s x := rfl

theorem store_erase (s : State) (c : Nat) :
    (eraseConstraint s c).1.store = s.store := rfl

theorem inactive_erase (s : State) (c : Nat) :
    (eraseConstraint s c).1.inactive = removeFirst c s.inactive := rfl

theorem pruneTriggerOf_erase (s : State) (c ch : Nat) :
    pruneTriggerOf (eraseConstraint s c).1 ch = pruneTriggerOf s ch := rfl

theorem differingDecl_erase (s : State) (c rd x : Nat) :
    differingDecl (eraseConstraint s c).1 rd x = differingDecl s rd x := rfl

theorem store_restore (s : State) (it c : Nat) :
    (restoreConstraint s it c).store = s.store := rfl

theorem inactive_restore (s : State) (it c : Nat) :
    (restoreConstraint s it c).inactive = insertAt it c s.inactive := rfl

theorem foldSetEnabled_inactive :
    ∀ (l : List Nat) (t : State),
      (l.foldl setEnabled t).inactive = t.inactive := by
  intro l
  induction l with
  | nil => intro t; rfl
  | cons ch rest ih =>
    intro t
    simpa only [List.foldl_cons] using ih (setEnabled t ch)

theorem foldSetEnabled_store_length :
    ∀ (l : List Nat) (t : State),
      (l.foldl setEnabled t).store.length = t.store.length := by
  intro l
  induction l with
  | nil => intro t; rfl
  | cons ch rest ih =>
    intro t
    simp only [List.foldl_cons]
    exact (ih (setEnabled t ch)).trans (storeLen_setFlag t ch true)

theorem foldSetEnabled_enabled :
    ∀ (l : List Nat) (t : State), (∀ y ∈ l, y < t.store.length) →
      ∀ x, enabledOf (l.foldl setEnabled t) x =
        if x ∈ l then true else enabledOf t x := by
  intro l
  induction l with
  | nil =>
    intro t _ x
    simp
  | cons ch rest ih =>
    intro t hb x
    have hbr : ∀ y ∈ rest, y < (setEnabled t ch).store.length := by
      intro y hy
      simp only [setEnabled, storeLen_setFlag]
      exact hb y (List.mem_cons_of_mem ch hy)
    simp only [List.foldl_cons]
    rw [ih (setEnabled t ch) hbr x]
    have hen : enabledOf (setEnabled t ch) x =
        if x = ch then true else enabledOf t x := by
      simp only [setEnabled]
      rw [enabledOf_setFlag]
      by_cases hxc : x = ch
      · rw [if_pos ⟨hxc, hb ch (List.mem_cons_self ch rest)⟩, if_pos hxc]
      · rw [if_neg (fun hcon => hxc hcon.1), if_neg hxc]
    rw [hen]
    by_cases hm : x ∈ rest
    · rw [if_pos hm, if_pos (List.mem_cons_of_mem ch hm)]
    · rw [if_neg hm]
      by_cases hxc : x = ch
      · rw [if_pos hxc, if_pos (hxc ▸ List.mem_cons_self x rest)]
      · rw [if_neg hxc, if_neg]
        intro hcon
        rcases List.mem_cons.mp hcon with h1 | h1
        · exact hxc h1
        · exact hm h1

/-! Claim theorems. -/

/-- Claim C7: for every constraint currently in the inactive constraint list
(and attached to the constraint graph, as every live constraint is), calling
`restore` with the constraint and the iterator returned by `erase` is a
round-trip: the whole solver state — the constraint list with its original
order, and the constraint graph's bookkeeping — equals its state before the
erase. -/
theorem erase_restore_roundtrip (s : State) (c : Nat)
    (h1 : c ∈ s.inactive) (h2 : c ∈ s.graph) :
    restoreConstraint (eraseConstraint s c).1 (eraseConstraint s c).2 c = s := by
  have hl := insertAt_posOf_removeFirst h1
  have hg := Finset.insert_erase h2
  show ({ s with
      graph := insert c (s.graph.erase c)
      inactive := insertAt (posOf c s.inactive) c (removeFirst c s.inactive) } : State) = s
  rw [hl, hg]

/-- Witness for C7 at a concrete state: constraint 0 is live at position 0
of `cexC1.inactive` and in the graph; erase followed by restore is the
identity. -/
theorem erase_restore_roundtrip_witness :
    restoreConstraint (eraseConstraint cexC1 0).1 (eraseConstraint cexC1 0).2 0 = cexC1 :=
  erase_restore_roundtrip cexC1 0 (by decide) (by decide)

/-- Claim C8: `filterSolutions` leaves the candidate set unchanged when the
constraint system is in retain-all-solutions (ambiguity-diagnosis) mode, and
otherwise delegates to the collaborator's solution filter (with the solver
state's expression weights and the `minimize` flag). -/
theorem filterSolutions_spec
    (csFilter : List Solution → List Nat → Bool → List Solution)
    (retainAll : Bool) (w sols : List Nat) (minimize : Bool) :
    (retainAll = true →
      stepFilterSolutions csFilter retainAll w sols minimize = sols) ∧
    (retainAll = false →
      stepFilterSolutions csFilter retainAll w sols minimize =
        csFilter sols w minimize) := by
  constructor <;> intro h <;> simp [stepFilterSolutions, h]

/-- Witness for C8: a concrete filter, weights and candidates, evaluated in
both modes. -/
theorem filterSolutions_spec_witness :
    stepFilterSolutions (fun sols _ _ => sols.take 1) true [1] [2, 3] false = [2, 3] ∧
    stepFilterSolutions (fun sols _ _ => sols.take 1) false [1] [2, 3] false = [2] :=
  ⟨(filterSolutions_spec (fun sols _ _ => sols.take 1) true [1] [2, 3] false).1 rfl,
   (filterSolutions_spec (fun sols _ _ => sols.take 1) false [1] [2, 3] false).2 rfl⟩

/-- Claim C9: the `ComponentStep` constructor initializes only `Index` and
`OriginalScore` (the two vector members are default-constructed empty); the
`Scope` and `OrphanedConstraint` pointers keep whatever the allocator memory
held, so for a freshly constructed step whose memory is indeterminate both
the destructor's null test of `Scope` and `recordOrphan`'s assertion read an
indeterminate value and their outcome is not determined by the public
interface. -/
theorem componentStep_uninitialized_fields (s : State) (index : Nat)
    (m1 m2 : Init (Option Nat)) (c : Nat) :
    (mkComponentStep s index m1 m2).index = index ∧
    (mkComponentStep s index m1 m2).originalScore = getCurrentScore s ∧
    (mkComponentStep s index m1 m2).typeVarsRecorded = [] ∧
    (mkComponentStep s index m1 m2).constraintsRecorded = [] ∧
    (mkComponentStep s index m1 m2).scopeMem = m1 ∧
    (mkComponentStep s index m1 m2).orphanMem = m2 ∧
    componentStepDestroyAct (mkComponentStep s index Init.indeterminate m2) =
      Init.indeterminate ∧
    recordOrphan (mkComponentStep s index m1 Init.indeterminate) c =
      Init.indeterminate :=
  ⟨rfl, rfl, rfl, rfl, rfl, rfl, rfl, rfl⟩

/-- Claim C6: on a properly initialized step (null `OrphanedConstraint`),
the first `recordOrphan` succeeds — so under the at-most-once precondition
the assertion never fires — and a second `recordOrphan` on the resulting
step is a fatal assertion failure. -/
theorem recordOrphan_contract (obj : ComponentStepObj) (c c2 : Nat)
    (h : obj.orphanMem = Init.value none) :
    recordOrphan obj c =
      Init.value (Except.ok { obj with orphanMem := Init.value (some c) }) ∧
    recordOrphan { obj with orphanMem := Init.value (some c) } c2 =
      Init.value (Except.error Fatal.assertOrphan) := by
  constructor
  · simp [recordOrphan, h]
  · simp [recordOrphan]

/-- Witness for C6 at a concrete, explicitly initialized step: recording
orphan 7 succeeds, recording 8 afterwards is the fatal assertion. -/
theorem recordOrphan_contract_witness :
    recordOrphan (mkComponentStep cexC1 0 (Init.value none) (Init.value none)) 7 =
      Init.value (Except.ok
        { mkComponentStep cexC1 0 (Init.value none) (Init.value none) with
            orphanMem := Init.value (some 7) }) ∧
    recordOrphan
      { mkComponentStep cexC1 0 (Init.value none) (Init.value none) with
          orphanMem := Init.value (some 7) } 8 =
      Init.value (Except.error Fatal.assertOrphan) :=
  recordOrphan_contract (mkComponentStep cexC1 0 (Init.value none) (Init.value none))
    7 8 rfl

/-- Claim C5: destroying a `SplitterStep` hands every orphaned constraint it
still holds back to the constraint graph's orphan list; when the recorded
orphans are pairwise distinct (each constraint object is recorded once
during decomposition), each appears exactly once in that list. -/
theorem splitterStep_orphans_handed_back (s : State) (step : SplitterStepObj)
    (hnd : step.orphanedConstraints.Nodup) :
    (destroySplitterStep s step).orphaned = step.orphanedConstraints ∧
    ∀ x ∈ step.orphanedConstraints,
      (destroySplitterStep s step).orphaned.count x = 1 := by
  refine ⟨rfl, fun x hx => ?_⟩
  simpa [destroySplitterStep] using List.count_eq_one_of_mem hnd hx

/-- Witness for C5: the two orphans of `exSplit` land in the graph's list
exactly once each. -/
theorem splitterStep_orphans_handed_back_witness :
    (destroySplitterStep exStateOrph exSplit).orphaned = [4, 5] ∧
    (destroySplitterStep exStateOrph exSplit).orphaned.count 4 = 1 :=
  ⟨(splitterStep_orphans_handed_back exStateOrph exSplit (by decide)).1,
   (splitterStep_orphans_handed_back exStateOrph exSplit (by decide)).2 4 (by decide)⟩

/-- Claim C10: `~SplitterStep` move-assigns the step's own list as the
graph's orphaned-constraint list — replacement, not append — so any orphan
the graph held before (and not also held by the step) is gone afterwards;
with zero recorded orphans the graph's list becomes empty. -/
theorem splitterStep_orphans_replaced (s : State) (step : SplitterStepObj) :
    (destroySplitterStep s step).orphaned = step.orphanedConstraints ∧
    (∀ x ∈ s.orphaned, x ∉ step.orphanedConstraints →
      x ∉ (destroySplitterStep s step).orphaned) := by
  refine ⟨rfl, fun x _ hx => ?_⟩
  simpa [destroySplitterStep] using hx

/-- Witness for C10: orphan 9 held by the graph before destruction is no
longer in the orphan list afterwards. -/
theorem splitterStep_orphans_replaced_witness :
    (destroySplitterStep exStateOrph exSplit).orphaned = [4, 5] ∧
    9 ∉ (destroySplitterStep exStateOrph exSplit).orphaned :=
  ⟨(splitterStep_orphans_replaced exStateOrph exSplit).1,
   (splitterStep_orphans_replaced exStateOrph exSplit).2 9 (by decide) (by decide)⟩

/-- Counterexample to claim C1 as stated: with live list `[0, 1]` and a
component owning only constraint 1, the `ComponentScope` destructor splices
the held constraints onto the *end* of the inactive list (CSStep.h line
207), so after the round trip the list reads `[1, 0]` — same constraints,
same flags, but not the pre-construction order, falsifying bit-for-bit
equality of the constraint list. -/
theorem componentStep_order_cex :
    (componentRoundTrip cexC1 cexComp id).inactive = [1, 0] ∧
    cexC1.inactive = [0, 1] ∧
    (componentRoundTrip cexC1 cexComp id).inactive ≠ cexC1.inactive := by
  decide

/-- Claim C1, amended: for every `ComponentStep` and every execution path of
its sub-search, destroying its `ComponentScope` restores the type-variable
pool, the current score, the constraint store (hence every disabled-flag),
the graph and the partial-solution-scope pointer bit-for-bit; the constraint
list again holds exactly the pre-construction constraints — as a permutation
— but reordered: the component's constraints first, the remaining
constraints after them, each group in its original relative order. -/
theorem componentStep_state_restoration (s : State) (comp : Component)
    (search : State → State) :
    (componentRoundTrip s comp search).typeVars = s.typeVars ∧
    (componentRoundTrip s comp search).score = getCurrentScore s ∧
    (componentRoundTrip s comp search).store = s.store ∧
    (componentRoundTrip s comp search).graph = s.graph ∧
    (componentRoundTrip s comp search).scopePtr = s.scopePtr ∧
    (componentRoundTrip s comp search).resolved = s.resolved ∧
    (componentRoundTrip s comp search).inactive =
      s.inactive.filter (fun c => comp.constraints.contains c) ++
        s.inactive.filter (fun c => !comp.constraints.contains c) ∧
    (componentRoundTrip s comp search).inactive.Perm s.inactive := by
  refine ⟨rfl, rfl, rfl, rfl, rfl, rfl, rfl, ?_⟩
  show (s.inactive.filter (fun c => comp.constraints.contains c) ++
      s.inactive.filter (fun c => !comp.constraints.contains c)).Perm s.inactive
  exact filter_partition_perm (fun c => comp.constraints.contains c) s.inactive

/-- Claim C4: `DisjunctionStep`'s constructor removes the disjunction from
the live constraint list (remembering the position for restoration) before
any choice is tried; a non-disjunction constraint, or a disjunction with no
nested choices, trips an assertion (fatal); under the precondition that the
argument is a disjunction with at least one nested choice, construction
succeeds — the failure branches are unreachable. -/
theorem disjunctionStep_construction_contract :
    (∀ s c, kindOf s c ≠ ConstraintKind.disjunction →
      mkDisjunctionStep s c = Except.error Fatal.assertKind) ∧
    (∀ s c, kindOf s c = ConstraintKind.disjunction → nestedOf s c = [] →
      mkDisjunctionStep s c = Except.error Fatal.assertFront) ∧
    (∀ s c ch rest, kindOf s c = ConstraintKind.disjunction →
      nestedOf s c = ch :: rest →
      ∃ p : State × DisjStep, mkDisjunctionStep s c = Except.ok p ∧
        p.2.disjunction = c ∧
        p.2.afterDisjunction = posOf c s.inactive ∧
        p.1.inactive = removeFirst c s.inactive ∧
        (c ∈ s.inactive →
          insertAt p.2.afterDisjunction p.2.disjunction p.1.inactive =
            s.inactive)) := by
  refine ⟨?_, ?_, ?_⟩
  · intro s c h
    unfold mkDisjunctionStep
    rw [kindOf_erase, if_neg h]
  · intro s c hk hn
    unfold mkDisjunctionStep
    rw [kindOf_erase, if_pos hk]
    have hp : pruneOverloadSet (eraseConstraint s c).1 c =
        Except.error Fatal.assertFront := by
      unfold pruneOverloadSet
      rw [nestedOf_erase, hn]
    rw [hp]
  · intro s c ch rest hk hn
    unfold mkDisjunctionStep
    rw [kindOf_erase, if_pos hk]
    have hn2 : nestedOf (eraseConstraint s c).1 c = ch :: rest := by
      rw [nestedOf_erase, hn]
    rw [pruneOverloadSet_eq (eraseConstraint s c).1 c ch rest hn2]
    rcases htr : pruneTriggerOf (eraseConstraint s c).1 ch with _ | rd
    · refine ⟨_, rfl, rfl, rfl, rfl, fun hm => ?_⟩
      exact insertAt_posOf_removeFirst hm
    · refine ⟨_, rfl, rfl, rfl, ?_, ?_⟩
      · exact (disableList_frame rd (nestedOf (eraseConstraint s c).1 c)
          (eraseConstraint s c).1).1
      · intro hm
        show insertAt (posOf c s.inactive) c
            (disableList (eraseConstraint s c).1 rd
              (nestedOf (eraseConstraint s c).1 c)).1.inactive = s.inactive
        rw [(disableList_frame rd (nestedOf (eraseConstraint s c).1 c)
          (eraseConstraint s c).1).1]
        exact insertAt_posOf_removeFirst hm

/-- Witness for C4: the assertion branches at concrete non-disjunction and
empty-nested inputs, and successful construction at `wstC2` with the
disjunction removed from position 0. -/
theorem disjunctionStep_construction_contract_witness :
    mkDisjunctionStep cexC1 0 = Except.error Fatal.assertKind ∧
    mkDisjunctionStep c4empty 0 = Except.error Fatal.assertFront ∧
    ∃ p : State × DisjStep, mkDisjunctionStep wstC2 0 = Except.ok p ∧
      p.2.afterDisjunction = 0 := by
  refine ⟨disjunctionStep_construction_contract.1 cexC1 0 (by decide),
    disjunctionStep_construction_contract.2.1 c4empty 0 (by decide) (by decide), ?_⟩
  obtain ⟨p, hp, _, hpos, _, _⟩ :=
    disjunctionStep_construction_contract.2.2 wstC2 0 1 [2] (by decide) (by decide)
  exact ⟨p, hp, by rw [hpos]; decide⟩

/-- Counterexample to claim C3 as stated: in `c3cex` the first nested
choice's operand is type variable 0 with representative 9, and *some*
previously resolved overload is bound to that representative with a
declaration choice (the older entry, declaration 5) while nested choice 2
carries the differing declaration 7 — so the claim requires choice 2 to be
disabled and recorded.  But the loop in `pruneOverloadSet` stops at the
*most recent* resolved overload bound to the representative, which is not a
declaration choice, and returns without disabling anything: the state is
unchanged and `DisabledChoices` stays empty. -/
theorem pruneOverloadSet_claim_cex :
    nestedOf c3cex 0 = [1, 2] ∧
    firstTypeOf c3cex 1 = Ty.tvar 0 ∧
    reprOf c3cex 0 = some 9 ∧
    c3cex.resolved =
      [ { boundType := Ty.tvar 9, choice := OverloadChoice.nonDecl 0 }
      , { boundType := Ty.tvar 9, choice := OverloadChoice.decl 5 } ] ∧
    choiceOf c3cex 2 = OverloadChoice.decl 7 ∧
    enabledOf c3cex 2 = true ∧
    pruneOverloadSet c3cex 0 = Except.ok (c3cex, []) := by
  decide

/-- Claim C3, amended: if the first nested choice's first operand type is a
type variable whose representative differs from the variable itself, and the
*most recently* resolved overload bound to that representative has a
declaration choice, then exactly the nested choices whose overload choice is
a declaration different from that declaration are disabled and recorded in
`DisabledChoices` (in nesting order); in every other case — including when
the most recent resolved overload bound to the representative is not a
declaration choice even though an older one is — no choice is disabled and
nothing is recorded. -/
theorem pruneOverloadSet_characterization :
    (∀ s d ch rest rd, nestedOf s d = ch :: rest →
      (∀ y ∈ nestedOf s d, y < s.store.length) →
      pruneTriggerOf s ch = some rd →
      ∃ p : State × List Nat, pruneOverloadSet s d = Except.ok p ∧
        p.2 = (nestedOf s d).filter (differingDecl s rd) ∧
        (∀ x, enabledOf p.1 x =
          if x ∈ nestedOf s d ∧ differingDecl s rd x = true then false
          else enabledOf s x) ∧
        p.1.inactive = s.inactive ∧ p.1.graph = s.graph ∧
        p.1.score = s.score ∧ p.1.typeVars = s.typeVars) ∧
    (∀ s d ch rest, nestedOf s d = ch :: rest →
      pruneTriggerOf s ch = none →
      pruneOverloadSet s d = Except.ok (s, [])) := by
  constructor
  · intro s d ch rest rd hn hwf htr
    rw [pruneOverloadSet_eq s d ch rest hn, htr]
    have hfr := disableList_frame rd (nestedOf s d) s
    exact ⟨disableList s rd (nestedOf s d), rfl,
      disableList_record rd (nestedOf s d) s,
      disableList_enabled rd (nestedOf s d) s hwf,
      hfr.1, hfr.2.1, hfr.2.2.1, hfr.2.2.2.1⟩
  · intro s d ch rest hn htr
    rw [pruneOverloadSet_eq s d ch rest hn, htr]

/-- Witness for C3 (amended): the heuristic fires at `wstC2` (recording
exactly choice 2, whose declaration 7 differs from the representative's
declaration 5) and does not fire at `c3cex`. -/
theorem pruneOverloadSet_characterization_witness :
    (∃ p : State × List Nat, pruneOverloadSet wstC2 0 = Except.ok p ∧ p.2 = [2]) ∧
    pruneOverloadSet c3cex 0 = Except.ok (c3cex, []) := by
  constructor
  · obtain ⟨p, hp, hrec, _⟩ := pruneOverloadSet_characterization.1 wstC2 0 1 [2] 5
      (by decide) (by decide) (by decide)
    exact ⟨p, hp, by rw [hrec]; decide⟩
  · exact pruneOverloadSet_characterization.2 c3cex 0 1 [2] (by decide) (by decide)

/-- Counterexample to claim C2 as stated: in `c2cex`, nested choice 2 is
already disabled before the `DisjunctionStep` is constructed; the pruning
heuristic fires, calls `setDisabled()` on it again (a no-op) and records it
in `DisabledChoices`, and the destructor then calls `setEnabled()` on every
recorded choice — so after destruction choice 2 is enabled, not equal to its
pre-construction (disabled) flag. -/
theorem disjunctionStep_flag_cex :
    enabledOf c2cex 2 = false ∧
    (disjunctionRoundTrip c2cex 0 id).map (fun r => enabledOf r 2) =
      Except.ok true := by
  decide

/-- Claim C2, amended: for every `DisjunctionStep` over a live disjunction
with at least one nested choice, and every exploration of its choices that
respects the scope discipline (each attempt's mutations of the constraint
list and store are rewound before the destructor runs — the spec's
per-choice `SolverScope` contract, here a hypothesis on `search`), destroying
the step reinserts the disjunction at its original position — the constraint
list is restored exactly — and leaves every constraint's enabled-flag at its
pre-construction value, provided every choice the pruning heuristic records
in `DisabledChoices` was enabled immediately before construction.  (Without
that proviso a pre-disabled recorded choice ends up enabled, as
`disjunctionStep_flag_cex` shows.) -/
theorem disjunctionStep_restoration (s : State) (c ch : Nat) (rest : List Nat)
    (search : State → State)
    (hk : kindOf s c = ConstraintKind.disjunction)
    (hn : nestedOf s c = ch :: rest)
    (hmem : c ∈ s.inactive)
    (hwf : ∀ y ∈ nestedOf s c, y < s.store.length)
    (hsearch : ∀ t, (search t).inactive = t.inactive ∧ (search t).store = t.store)
    (hpre : ∀ x ∈ pruneRecordOf s c, enabledOf s x = true) :
    ∃ r : State, disjunctionRoundTrip s c search = Except.ok r ∧
      r.inactive = s.inactive ∧
      (∀ x, enabledOf r x = enabledOf s x) := by
  have hn1 : nestedOf (eraseConstraint s c).1 c = ch :: rest := by
    rw [nestedOf_erase, hn]
  have hprune := pruneOverloadSet_eq (eraseConstraint s c).1 c ch rest hn1
  rcases htr : pruneTriggerOf (eraseConstraint s c).1 ch with _ | rd
  · -- the pruning heuristic does not fire: nothing is recorded
    have hmk : mkDisjunctionStep s c =
        Except.ok
          ({ (eraseConstraint s c).1 with
              numDisjunctions := (eraseConstraint s c).1.numDisjunctions + 1 },
           { disjunction := c
             afterDisjunction := posOf c s.inactive
             disabledChoices := [] }) := by
      unfold mkDisjunctionStep
      rw [kindOf_erase, if_pos hk, hprune, htr]
    have hrt : disjunctionRoundTrip s c search =
        Except.ok
          (destroyDisjunctionStep
            (search { (eraseConstraint s c).1 with
                numDisjunctions := (eraseConstraint s c).1.numDisjunctions + 1 })
            { disjunction := c
              afterDisjunction := posOf c s.inactive
              disabledChoices := [] }) := by
      unfold disjunctionRoundTrip
      rw [hmk]
    refine ⟨_, hrt, ?_, ?_⟩
    · show (insertAt (posOf c s.inactive) c
        (search { (eraseConstraint s c).1 with
            numDisjunctions := (eraseConstraint s c).1.numDisjunctions + 1 }).inactive)
        = s.inactive
      rw [(hsearch _).1]
      show insertAt (posOf c s.inactive) c (removeFirst c s.inactive) = s.inactive
      exact insertAt_posOf_removeFirst hmem
    · intro x
      have e1 : enabledOf
          (destroyDisjunctionStep
            (search { (eraseConstraint s c).1 with
                numDisjunctions := (eraseConstraint s c).1.numDisjunctions + 1 })
            { disjunction := c
              afterDisjunction := posOf c s.inactive
              disabledChoices := [] }) x =
          enabledOf
            (search { (eraseConstraint s c).1 with
                numDisjunctions := (eraseConstraint s c).1.numDisjunctions + 1 }) x :=
        enabledOf_congr rfl x
      have e2 : enabledOf
          (search { (eraseConstraint s c).1 with
              numDisjunctions := (eraseConstraint s c).1.numDisjunctions + 1 }) x =
          enabledOf s x := by
        refine (enabledOf_congr ?_ x)
        exact (hsearch _).2
      exact e1.trans e2
  · -- the pruning heuristic fires with representative declaration rd
    have hmk : mkDisjunctionStep s c =
        Except.ok
          ({ (disableList (eraseConstraint s c).1 rd
                (nestedOf (eraseConstraint s c).1 c)).1 with
              numDisjunctions :=
                (disableList (eraseConstraint s c).1 rd
                  (nestedOf (eraseConstraint s c).1 c)).1.numDisjunctions + 1 },
           { disjunction := c
             afterDisjunction := posOf c s.inactive
             disabledChoices :=
               (disableList (eraseConstraint s c).1 rd
                 (nestedOf (eraseConstraint s c).1 c)).2 }) := by
      unfold mkDisjunctionStep
      rw [kindOf_erase, if_pos hk, hprune, htr]
    have hrt : disjunctionRoundTrip s c search =
        Except.ok
          (destroyDisjunctionStep
            (search
              { (disableList (eraseConstraint s c).1 rd
                    (nestedOf (eraseConstraint s c).1 c)).1 with
                  numDisjunctions :=
                    (disableList (eraseConstraint s c).1 rd
                      (nestedOf (eraseConstraint s c).1 c)).1.numDisjunctions + 1 })
            { disjunction := c
              afterDisjunction := posOf c s.inactive
              disabledChoices :=
                (disableList (eraseConstraint s c).1 rd
                  (nestedOf (eraseConstraint s c).1 c)).2 }) := by
      unfold disjunctionRoundTrip
      rw [hmk]
    have hfr := disableList_frame rd (nestedOf (eraseConstraint s c).1 c)
      (eraseConstraint s c).1
    have hwf1 : ∀ y ∈ nestedOf (eraseConstraint s c).1 c,
        y < (eraseConstraint s c).1.store.length := fun y hy => hwf y hy
    have hrec := disableList_record rd (nestedOf (eraseConstraint s c).1 c)
      (eraseConstraint s c).1
    have hen := disableList_enabled rd (nestedOf (eraseConstraint s c).1 c)
      (eraseConstraint s c).1 hwf1
    have htr0 : pruneTriggerOf s ch = some rd := by
      rw [← pruneTriggerOf_erase s c ch]
      exact htr
    have hps : pruneOverloadSet s c = Except.ok (disableList s rd (nestedOf s c)) := by
      rw [pruneOverloadSet_eq s c ch rest hn, htr0]
    have hrec_eq : pruneRecordOf s c =
        (disableList (eraseConstraint s c).1 rd
          (nestedOf (eraseConstraint s c).1 c)).2 := by
      unfold pruneRecordOf
      rw [hps]
      show (disableList s rd (nestedOf s c)).2 =
        (disableList (eraseConstraint s c).1 rd (nestedOf (eraseConstraint s c).1 c)).2
      rw [disableList_record rd (nestedOf s c) s, hrec]
      exact rfl
    -- the recorded choices live in the nested list, hence in bounds
    have hsub : ∀ y ∈ (disableList (eraseConstraint s c).1 rd
        (nestedOf (eraseConstraint s c).1 c)).2, y ∈ nestedOf s c := by
      intro y hy
      rw [hrec] at hy
      exact (List.mem_filter.mp hy).1
    refine ⟨_, hrt, ?_, ?_⟩
    · have h1 : (destroyDisjunctionStep
          (search
            { (disableList (eraseConstraint s c).1 rd
                  (nestedOf (eraseConstraint s c).1 c)).1 with
                numDisjunctions :=
                  (disableList (eraseConstraint s c).1 rd
                    (nestedOf (eraseConstraint s c).1 c)).1.numDisjunctions + 1 })
          { disjunction := c
            afterDisjunction := posOf c s.inactive
            disabledChoices :=
              (disableList (eraseConstraint s c).1 rd
                (nestedOf (eraseConstraint s c).1 c)).2 }).inactive =
          insertAt (posOf c s.inactive) c
            (search
              { (disableList (eraseConstraint s c).1 rd
                    (nestedOf (eraseConstraint s c).1 c)).1 with
                  numDisjunctions :=
                    (disableList (eraseConstraint s c).1 rd
                      (nestedOf (eraseConstraint s c).1 c)).1.numDisjunctions + 1 }).inactive := by
        unfold destroyDisjunctionStep
        rw [foldSetEnabled_inactive]
        rfl
      rw [h1, (hsearch _).1]
      show insertAt (posOf c s.inactive) c
        (disableList (eraseConstraint s c).1 rd
          (nestedOf (eraseConstraint s c).1 c)).1.inactive = s.inactive
      rw [hfr.1]
      show insertAt (posOf c s.inactive) c (removeFirst c s.inactive) = s.inactive
      exact insertAt_posOf_removeFirst hmem
    · intro x
      have hb2 : ∀ y ∈ (disableList (eraseConstraint s c).1 rd
          (nestedOf (eraseConstraint s c).1 c)).2,
          y < (restoreConstraint
            (search
              { (disableList (eraseConstraint s c).1 rd
                    (nestedOf (eraseConstraint s c).1 c)).1 with
                  numDisjunctions :=
                    (disableList (eraseConstraint s c).1 rd
                      (nestedOf (eraseConstraint s c).1 c)).1.numDisjunctions + 1 })
            (posOf c s.inactive) c).store.length := by
        intro y hy
        have hlen : (restoreConstraint
            (search
              { (disableList (eraseConstraint s c).1 rd
                    (nestedOf (eraseConstraint s c).1 c)).1 with
                  numDisjunctions :=
                    (disableList (eraseConstraint s c).1 rd
                      (nestedOf (eraseConstraint s c).1 c)).1.numDisjunctions + 1 })
            (posOf c s.inactive) c).store.length = s.store.length := by
          show (search
              { (disableList (eraseConstraint s c).1 rd
                    (nestedOf (eraseConstraint s c).1 c)).1 with
                  numDisjunctions :=
                    (disableList (eraseConstraint s c).1 rd
                      (nestedOf (eraseConstraint s c).1 c)).1.numDisjunctions + 1 }).store.length
            = s.store.length
          rw [(hsearch _).2]
          exact hfr.2.2.2.2.2.2.2.2.2
        rw [hlen]
        exact hwf y (hsub y hy)
      show enabledOf ((disableList (eraseConstraint s c).1 rd
          (nestedOf (eraseConstraint s c).1 c)).2.foldl setEnabled
          (restoreConstraint
            (search
              { (disableList (eraseConstraint s c).1 rd
                    (nestedOf (eraseConstraint s c).1 c)).1 with
                  numDisjunctions :=
                    (disableList (eraseConstraint s c).1 rd
                      (nestedOf (eraseConstraint s c).1 c)).1.numDisjunctions + 1 })
            (posOf c s.inactive) c)) x = enabledOf s x
      rw [foldSetEnabled_enabled _ _ hb2 x]
      by_cases hx : x ∈ (disableList (eraseConstraint s c).1 rd
          (nestedOf (eraseConstraint s c).1 c)).2
      · rw [if_pos hx]
        exact (hpre x (by rw [hrec_eq]; exact hx)).symm
      · rw [if_neg hx]
        have e1 : enabledOf (restoreConstraint
            (search
              { (disableList (eraseConstraint s c).1 rd
                    (nestedOf (eraseConstraint s c).1 c)).1 with
                  numDisjunctions :=
                    (disableList (eraseConstraint s c).1 rd
                      (nestedOf (eraseConstraint s c).1 c)).1.numDisjunctions + 1 })
            (posOf c s.inactive) c) x =
            enabledOf (search
              { (disableList (eraseConstraint s c).1 rd
                    (nestedOf (eraseConstraint s c).1 c)).1 with
                  numDisjunctions :=
                    (disableList (eraseConstraint s c).1 rd
                      (nestedOf (eraseConstraint s c).1 c)).1.numDisjunctions + 1 }) x :=
          enabledOf_congr rfl x
        have e2 : enabledOf (search
            { (disableList (eraseConstraint s c).1 rd
                  (nestedOf (eraseConstraint s c).1 c)).1 with
                numDisjunctions :=
                  (disableList (eraseConstraint s c).1 rd
                    (nestedOf (eraseConstraint s c).1 c)).1.numDisjunctions + 1 }) x =
            enabledOf (disableList (eraseConstraint s c).1 rd
              (nestedOf (eraseConstraint s c).1 c)).1 x :=
          enabledOf_congr (hsearch _).2 x
        have hncond : ¬(x ∈ nestedOf (eraseConstraint s c).1 c ∧
            differingDecl (eraseConstraint s c).1 rd x = true) := by
          intro hcomb
          apply hx
          rw [hrec]
          exact List.mem_filter.mpr ⟨hcomb.1, hcomb.2⟩
        rw [e1, e2, hen x, if_neg hncond]
        rfl

/-- Witness for C2 (amended) at `wstC2` (both choices enabled, pruning
records choice 2, exploration is the identity): the round trip succeeds,
restores the constraint list exactly, and choice 2 is enabled again. -/
theorem disjunctionStep_restoration_witness :
    ∃ r : State, disjunctionRoundTrip wstC2 0 id = Except.ok r ∧
      r.inactive = [0] ∧ enabledOf r 2 = true := by
  obtain ⟨r, hr, hin, hfl⟩ := disjunctionStep_restoration wstC2 0 1 [2] id
    (by decide) (by decide) (by decide) (by decide)
    (fun t => ⟨rfl, rfl⟩) (by decide)
  exact ⟨r, hr, by rw [hin]; decide, by rw [hfl 2]; decide⟩

end CSStep
